import Mathlib

/-!
# Verification of the fluxgate-wasm rate limiter

The repository ships a TypeScript wrapper (`js/index.ts`, `js/types.ts`,
`js/worker.ts`, `js/node-loader.js`) around a WebAssembly build of the
Fluxgate core.  The wrapper code is embedded directly below.  The core
engine (policy matching, GCRA, hot/cold tiers, sharding, rotation and the
snapshot codec) is not part of the packaged sources, so it is modelled
from the design document (`spec.md`), as flagged on each definition.

Rationals (`Rat`) model the JavaScript/Rust numeric values; times are in
seconds.  Because the built-in `Rat` arithmetic does not reduce inside the
kernel, executable mirrors (`qAdd`, `qSub`, `qMul`, `qLe`, `qMax`) are used
in the definitions, each proved equal to the mathematical operation.
-/

/-! ## Executable rational arithmetic -/

def qAdd (a b : Rat) : Rat := mkRat (a.num * b.den + b.num * a.den) (a.den * b.den)

def qSub (a b : Rat) : Rat := mkRat (a.num * b.den - b.num * a.den) (a.den * b.den)

def qMul (a b : Rat) : Rat := mkRat (a.num * b.num) (a.den * b.den)

def qLe (a b : Rat) : Bool := decide (a.num * b.den ≤ b.num * a.den)

def qMax (a b : Rat) : Rat := if qLe a b then b else a

theorem qAdd_eq (a b : Rat) : qAdd a b = a + b := (Rat.add_def' a b).symm

theorem qSub_eq (a b : Rat) : qSub a b = a - b := (Rat.sub_def' a b).symm

theorem qMul_eq (a b : Rat) : qMul a b = a * b := by
  rw [qMul, ← Rat.normalize_eq_mkRat, ← Rat.mul_def]

theorem qLe_iff (a b : Rat) : qLe a b = true ↔ a ≤ b := by
  rw [qLe, decide_eq_true_iff, Rat.le_def]

theorem qMax_eq (a b : Rat) : qMax a b = max a b := by
  rw [qMax]
  by_cases h : a ≤ b
  · rw [if_pos ((qLe_iff a b).mpr h), max_eq_right h]
  · rw [if_neg (by simpa [qLe_iff] using h), max_eq_left (le_of_not_le h)]

/-! ## Types of the TypeScript wrapper (`js/types.ts`) -/

/-- `js/types.ts`: `FluxgatePolicy`. -/
structure FluxgatePolicy where
  id : String
  matchExpr : String
  limitPerSecond : Rat
  burst : Nat
  windowSeconds : Rat
  action : Option String := none
deriving DecidableEq

/-- `js/types.ts`: field names of the `CheckResult` record, in declaration
order.  Note the per-policy map is declared under the key `decisions`. -/
def CheckResultFieldNames : List String := ["allowed", "retryAfterMs", "decisions"]

/-- `js/types.ts`: the per-policy entry of `CheckResult.decisions`. -/
structure PolicyDecision where
  allowed : Bool
  retryAfterMs : Option Rat := none
deriving DecidableEq

/-- `js/types.ts`: `CheckResult`. -/
structure CheckResult where
  allowed : Bool
  retryAfterMs : Option Rat := none
  decisions : List (String × PolicyDecision) := []
deriving DecidableEq

/-- `js/types.ts`: attribute values allowed in `CheckRequest.attrs`. -/
inductive AttrVal where
  | str (s : String)
  | num (q : Rat)
  | boolean (b : Bool)
  | null
deriving DecidableEq

/-- `js/types.ts`: `CheckRequest` (all fields optional). -/
structure CheckRequest where
  ip : Option String := none
  route : Option String := none
  headers : List (String × Option String) := []
  attrs : List (String × Option AttrVal) := []
deriving DecidableEq

/-- `js/types.ts`: `FluxgateInit` (all fields optional). -/
structure FluxgateInit where
  policies : Option (List FluxgatePolicy) := none
  configText : Option String := none
  keySecret : Option String := none
  slices : Option Nat := none
  sketchWidth : Option Nat := none
  sketchDepth : Option Nat := none
  topK : Option Nat := none
  shardAHotCapacity : Option Nat := none
  admissionHitsToPromote : Option Nat := none
deriving DecidableEq

/-! ## GCRA rate algorithm (spec §4.2)

The Rust core is not in the packaged sources; the algorithm below is
modelled from the spec. -/

/-- Outcome of one GCRA evaluation: the decision, the wait time in seconds
when denied, and the updated theoretical arrival time. -/
structure GcraOutcome where
  allowed : Bool
  retryAfter : Option Rat
  tat : Rat
deriving DecidableEq

/-- Modelled from the spec: §4.2 GCRA arrival.  With emission interval `T`
and burst tolerance `tau`, on arrival at `now`: if no prior state the
theoretical arrival time (TAT) starts at `now`; `allowAt = TAT - tau`;
if `now >= allowAt` allow and set `TAT = max(TAT, now) + T`, else deny
with `retryAfter = allowAt - now`. -/
def gcraEval (T tau now : Rat) (prior : Option Rat) : GcraOutcome :=
  let tat := prior.getD now
  let allowAt := qSub tat tau
  if qLe allowAt now then
    { allowed := true, retryAfter := none, tat := qAdd (qMax tat now) T }
  else
    { allowed := false, retryAfter := some (qSub allowAt now), tat := tat }

/-- State of a key after `n` GCRA arrivals all at time `t`, starting from
no prior state. -/
def gcraBurst (T tau t : Rat) : Nat → Option Rat
  | 0 => none
  | n + 1 => some (gcraEval T tau t (gcraBurst T tau t n)).tat

/-- Whether all of the first `n` instantaneous arrivals were allowed. -/
def gcraBurstAllAllowed (T tau t : Rat) : Nat → Bool
  | 0 => true
  | n + 1 => gcraBurstAllAllowed T tau t n && (gcraEval T tau t (gcraBurst T tau t n)).allowed

/-- Spec §4.2: `T = 1/ratePerSecond` (via the wrapper field name
`limitPerSecond`). -/
def emissionInterval (p : FluxgatePolicy) : Rat :=
  mkRat p.limitPerSecond.den p.limitPerSecond.num.natAbs

/-- Spec §4.2: burst tolerance `tau = burst * T`. -/
def burstTolerance (p : FluxgatePolicy) : Rat :=
  qMul (mkRat p.burst 1) (emissionInterval p)

theorem emissionInterval_eq (p : FluxgatePolicy) (hp : 0 < p.limitPerSecond) :
    emissionInterval p = 1 / p.limitPerSecond := by
  have hnum : 0 < p.limitPerSecond.num := Rat.num_pos.mpr hp
  have h1 : ((p.limitPerSecond.num : ℚ)) ≠ 0 := by exact_mod_cast ne_of_gt hnum
  have habs : ((p.limitPerSecond.num.natAbs : ℚ)) = ((p.limitPerSecond.num : ℚ)) := by
    have h := abs_of_pos hnum
    rw [Int.cast_natAbs]
    exact congrArg (fun z : ℤ => ((z : ℚ))) h
  rw [emissionInterval, Rat.mkRat_eq_div, habs]
  rw [div_eq_div_iff h1 (ne_of_gt hp), one_mul]
  exact_mod_cast Rat.den_mul_eq_num p.limitPerSecond

theorem burstTolerance_eq (p : FluxgatePolicy) :
    burstTolerance p = (p.burst : Rat) * emissionInterval p := by
  rw [burstTolerance, qMul_eq]
  norm_num [Rat.mkRat_eq_div]

theorem emissionInterval_pos (p : FluxgatePolicy) (hp : 0 < p.limitPerSecond) :
    0 < emissionInterval p := by
  rw [emissionInterval_eq p hp]
  positivity

theorem gcraEval_of_le (T tau now : Rat) (prior : Option Rat)
    (h : qLe (qSub (prior.getD now) tau) now = true) :
    gcraEval T tau now prior =
      { allowed := true, retryAfter := none, tat := qAdd (qMax (prior.getD now) now) T } := by
  simp only [gcraEval]
  rw [if_pos h]

theorem gcraEval_of_gt (T tau now : Rat) (prior : Option Rat)
    (h : qLe (qSub (prior.getD now) tau) now = false) :
    gcraEval T tau now prior =
      { allowed := false, retryAfter := some (qSub (qSub (prior.getD now) tau) now),
        tat := prior.getD now } := by
  simp only [gcraEval]
  rw [if_neg (by simp [h])]

/-- Closed form for an instantaneous burst: as long as at most `b + 1`
arrivals have been processed (with `tau = b * T`), every arrival is
allowed and the TAT after `n` arrivals is `t + n * T`. -/
theorem gcraBurst_closed (T tau t : Rat) (b : Nat) (hT : 0 < T)
    (htau : tau = (b : Rat) * T) :
    ∀ n : Nat, n ≤ b + 1 →
      (gcraBurst T tau t n = if n = 0 then none else some (t + (n : Rat) * T)) ∧
      gcraBurstAllAllowed T tau t n = true := by
  intro n
  induction n with
  | zero => intro _; exact ⟨rfl, rfl⟩
  | succ m ih =>
    intro hm
    have hmb : m ≤ b := Nat.succ_le_succ_iff.mp hm
    obtain ⟨hstate, hall⟩ := ih (Nat.le_succ_of_le hmb)
    have hmT : (0 : Rat) ≤ (m : Rat) * T := by positivity
    have htat : (gcraBurst T tau t m).getD t = t + (m : Rat) * T := by
      rcases Nat.eq_zero_or_pos m with h0 | h0
      · subst h0; simp at hstate; simp [hstate]
      · rw [hstate, if_neg (Nat.pos_iff_ne_zero.mp h0)]; rfl
    have hcond : qLe (qSub ((gcraBurst T tau t m).getD t) tau) t = true := by
      rw [qLe_iff, qSub_eq, htat, htau]
      have : (m : Rat) * T ≤ (b : Rat) * T := by
        have : ((m : Rat)) ≤ (b : Rat) := by exact_mod_cast hmb
        nlinarith
      linarith
    have heval : gcraEval T tau t (gcraBurst T tau t m) =
        { allowed := true, retryAfter := none, tat := t + ((m + 1 : Nat) : Rat) * T } := by
      rw [gcraEval_of_le T tau t _ hcond, htat]
      have : qAdd (qMax (t + (m : Rat) * T) t) T = t + ((m + 1 : Nat) : Rat) * T := by
        rw [qAdd_eq, qMax_eq, max_eq_left (by linarith)]
        push_cast
        ring
      rw [this]
    constructor
    · rw [gcraBurst, heval]
      simp
    · rw [gcraBurstAllAllowed, hall, heval]
      rfl

theorem qLe_eq_false_iff (a b : Rat) : (qLe a b = false) ↔ b < a := by
  rw [Bool.eq_false_iff, Ne, qLe_iff, not_le]

/-- **C1 (amended).** For every key and matched policy with emission
interval `T = 1/ratePerSecond` and burst tolerance `tau = burst * T`, a
key with no prior state sending `burst + 1` requests at one instant `t`
has all of them allowed, and a further request at any `t2` with
`t ≤ t2 < t + T` is denied with `retryAfter = (t + T) - t2` seconds
(hence `retryAfterMs = T * 1000` when issued at the same instant `t`). -/
theorem c1_burst_boundary (p : FluxgatePolicy) (t t2 : Rat)
    (hp : 0 < p.limitPerSecond) (h1 : t ≤ t2)
    (h2 : t2 < t + emissionInterval p) :
    gcraBurstAllAllowed (emissionInterval p) (burstTolerance p) t (p.burst + 1) = true ∧
    (gcraEval (emissionInterval p) (burstTolerance p) t2
        (gcraBurst (emissionInterval p) (burstTolerance p) t (p.burst + 1))).allowed = false ∧
    (gcraEval (emissionInterval p) (burstTolerance p) t2
        (gcraBurst (emissionInterval p) (burstTolerance p) t (p.burst + 1))).retryAfter =
      some (t + emissionInterval p - t2) := by
  have hT := emissionInterval_pos p hp
  have htau := burstTolerance_eq p
  obtain ⟨hstate, hall⟩ :=
    gcraBurst_closed (emissionInterval p) (burstTolerance p) t p.burst hT htau
      (p.burst + 1) (le_refl _)
  rw [if_neg (Nat.succ_ne_zero _)] at hstate
  have hprior : (gcraBurst (emissionInterval p) (burstTolerance p) t (p.burst + 1)).getD t2 =
      t + ((p.burst + 1 : Nat) : Rat) * emissionInterval p := by
    rw [hstate]; rfl
  have hcond : qLe (qSub ((gcraBurst (emissionInterval p) (burstTolerance p) t
      (p.burst + 1)).getD t2) (burstTolerance p)) t2 = false := by
    rw [qLe_eq_false_iff, qSub_eq, hprior, htau]
    push_cast
    linarith
  refine ⟨hall, ?_, ?_⟩
  · rw [gcraEval_of_gt _ _ _ _ hcond]
  · rw [gcraEval_of_gt _ _ _ _ hcond]
    have : qSub (qSub ((gcraBurst (emissionInterval p) (burstTolerance p) t
        (p.burst + 1)).getD t2) (burstTolerance p)) t2 = t + emissionInterval p - t2 := by
      rw [qSub_eq, qSub_eq, hprior, htau]
      push_cast
      ring
    rw [this]

/-- Concrete policy used in counterexamples and witnesses:
`{limitPerSecond := 1, burst := 1, windowSeconds := 60}`. -/
def cexPolicy : FluxgatePolicy :=
  { id := "p", matchExpr := "ip:*", limitPerSecond := mkRat 1 1, burst := 1,
    windowSeconds := mkRat 60 1 }

/-- **C1 (counterexample).** With `limitPerSecond = 1` and `burst = 1`
(`T = 1`, `tau = burst * T = 1`), a fresh key sends exactly `burst = 1`
request at `t = 0` (allowed), and the immediately following request, also
at `t = 0` (before `T` has elapsed), is *allowed* by the spec's GCRA
update rule — the claim says it is denied. -/
theorem c1_counterexample :
    gcraBurstAllAllowed (emissionInterval cexPolicy) (burstTolerance cexPolicy) (mkRat 0 1)
        cexPolicy.burst = true ∧
    (gcraEval (emissionInterval cexPolicy) (burstTolerance cexPolicy) (mkRat 0 1)
        (gcraBurst (emissionInterval cexPolicy) (burstTolerance cexPolicy) (mkRat 0 1)
          cexPolicy.burst)).allowed = true := by
  decide

/-- Witness for `c1_burst_boundary` at the concrete policy `cexPolicy`,
`t = t2 = 0`. -/
theorem c1_burst_boundary_witness :
    (0 : Rat) < cexPolicy.limitPerSecond ∧
    (mkRat 0 1 ≤ mkRat 0 1) ∧ (mkRat 0 1 < mkRat 0 1 + emissionInterval cexPolicy) ∧
    (gcraBurstAllAllowed (emissionInterval cexPolicy) (burstTolerance cexPolicy) (mkRat 0 1)
        (cexPolicy.burst + 1) = true ∧
      (gcraEval (emissionInterval cexPolicy) (burstTolerance cexPolicy) (mkRat 0 1)
          (gcraBurst (emissionInterval cexPolicy) (burstTolerance cexPolicy) (mkRat 0 1)
            (cexPolicy.burst + 1))).allowed = false ∧
      (gcraEval (emissionInterval cexPolicy) (burstTolerance cexPolicy) (mkRat 0 1)
          (gcraBurst (emissionInterval cexPolicy) (burstTolerance cexPolicy) (mkRat 0 1)
            (cexPolicy.burst + 1))).retryAfter =
        some (mkRat 0 1 + emissionInterval cexPolicy - mkRat 0 1)) := by
  have he : emissionInterval cexPolicy = mkRat 1 1 := by decide
  have h0 : (0 : Rat) < cexPolicy.limitPerSecond := by
    show (0 : Rat) < mkRat 1 1
    rw [Rat.mkRat_one]
    norm_num
  have h2 : mkRat 0 1 < mkRat 0 1 + emissionInterval cexPolicy := by
    rw [he, Rat.mkRat_one, Rat.mkRat_one]
    norm_num
  exact ⟨h0, le_refl _, h2, c1_burst_boundary cexPolicy (mkRat 0 1) (mkRat 0 1) h0 (le_refl _) h2⟩

/-! ## Engine model (spec §§2–4.7)

The Rust core is not in the packaged sources; every definition in this
section is modelled from the spec. -/

/-- Modelled from the spec: §9 — match expressions compile into a small
tagged-variant matcher (exact / wildcard over an attribute path). -/
inductive CompiledMatch where
  | exact (attr value : String)
  | wildcard (attr : String)
deriving DecidableEq

/-- Splits a character list at the first `:`. -/
def breakAtColon : List Char → Option (List Char × List Char)
  | [] => none
  | c :: cs =>
    if c = ':' then some ([], cs)
    else (breakAtColon cs).map (fun ab => (c :: ab.1, ab.2))

/-- Modelled from the spec: §4.1 — match expressions are attribute-path +
pattern (`"ip:*"` matches any value under `ip`); malformed expressions
(no `:` separator) are rejected at load time. -/
def compileMatch (s : String) : Option CompiledMatch :=
  match breakAtColon s.data with
  | none => none
  | some (a, p) =>
    if p = ['*'] then some (.wildcard (String.mk a)) else some (.exact (String.mk a) (String.mk p))

/-- Stringification of attribute values for matching and key derivation. -/
def attrValString : AttrVal → String
  | .str s => s
  | .num q => toString q
  | .boolean b => if b then "true" else "false"
  | .null => "null"

/-- The attribute set of a request: `ip`, `route`, headers and custom
attributes, skipping absent (`undefined`) values. -/
def requestAttrs (r : CheckRequest) : List (String × String) :=
  (match r.ip with | some v => [("ip", v)] | none => []) ++
  (match r.route with | some v => [("route", v)] | none => []) ++
  r.headers.filterMap (fun kv => kv.2.map (fun v => (kv.1, v))) ++
  r.attrs.filterMap (fun kv => kv.2.map (fun v => (kv.1, attrValString v)))

/-- The value matched by a compiled expression, if any. -/
def matchValue (attrs : List (String × String)) : CompiledMatch → Option String
  | .exact a v =>
    match attrs.lookup a with
    | some w => if w = v then some w else none
    | none => none
  | .wildcard a => attrs.lookup a

/-- A policy together with its compiled match expression. -/
structure CompiledPolicy where
  base : FluxgatePolicy
  pattern : CompiledMatch
deriving DecidableEq

def isExactPattern : CompiledMatch → Bool
  | .exact _ _ => true
  | .wildcard _ => false

def policyMatches (attrs : List (String × String)) (cp : CompiledPolicy) : Bool :=
  (matchValue attrs cp.pattern).isSome

/-- Modelled from the spec: §4.1 — the ordered list of matching policies,
most-specific first (exact before wildcard, ties by declaration order). -/
def matchedPolicies (policies : List CompiledPolicy) (r : CheckRequest) : List CompiledPolicy :=
  let attrs := requestAttrs r
  let hit := policies.filter (fun cp => policyMatches attrs cp)
  hit.filter (fun cp => isExactPattern cp.pattern) ++
    hit.filter (fun cp => !isExactPattern cp.pattern)

/-- Modelled from the spec: §2 Key Deriver — a keyed (secret-seeded) hash
of `(policyId, matchedIdentity)` to a fixed-width key (FNV-style, 32-bit). -/
def keyHash (secret pid ident : String) : Nat :=
  (secret ++ "|" ++ pid ++ "|" ++ ident).data.foldl
    (fun h c => ((h ^^^ c.toNat) * 16777619) % 4294967296) 2166136261

/-- Modelled from the spec: §3 GCRA State + HotEntry — exact per-key state
held by the hot tier. -/
structure HotEntry where
  key : Nat
  tat : Rat
  lastSeenEpoch : Nat
  recency : Nat
deriving DecidableEq

/-- Modelled from the spec: §3 Shard — one hot tier, one frequency sketch,
and a recency counter for LRU bookkeeping. -/
structure Shard where
  hot : List HotEntry
  sketch : List (List Nat)
  nextRecency : Nat
deriving DecidableEq

/-- Modelled from the spec: §6 `initialize(config)` fields. -/
structure EngineConfig where
  slices : Nat
  sketchWidth : Nat
  sketchDepth : Nat
  shardAHotCapacity : Nat
  admissionHitsToPromote : Nat
  keySecret : String
deriving DecidableEq

/-- Modelled from the spec: §3 Engine — policy set, version, epoch, shards. -/
structure Engine where
  cfg : EngineConfig
  policies : List CompiledPolicy
  policyVersion : Nat
  epoch : Nat
  shards : List Shard
deriving DecidableEq

/-- The bucket of row `r` for a key (row length = sketch width). -/
def sketchSlot (key r w : Nat) : Nat := ((r + 1) * key + r * r) % w

/-- The counters a key hashes to, one per row. -/
def sketchCells (sk : List (List Nat)) (key : Nat) : List Nat :=
  sk.enum.map (fun p => p.2.getD (sketchSlot key p.1 p.2.length) 0)

def listMinD : List Nat → Nat → Nat
  | [], d => d
  | x :: xs, _ => xs.foldl Nat.min x

/-- Modelled from the spec: §4.3 — count-min style estimate: the minimum
counter across rows. -/
def sketchEstimate (sk : List (List Nat)) (key : Nat) : Nat :=
  listMinD (sketchCells sk key) 0

/-- Modelled from the spec: §4.4 — counters are bounded and saturate. -/
def sketchSaturate : Nat := 255

/-- Modelled from the spec: §4.3 — conservative update: only the counters
equal to the minimum are incremented (saturating). -/
def sketchIncrement (sk : List (List Nat)) (key : Nat) : List (List Nat) :=
  let est := sketchEstimate sk key
  sk.enum.map (fun p =>
    let slot := sketchSlot key p.1 p.2.length
    if p.2.getD slot 0 = est then p.2.set slot (Nat.min (p.2.getD slot 0 + 1) sketchSaturate)
    else p.2)

/-- The least-recently-used entry among `e :: l` (minimal recency marker). -/
def lruOf (e : HotEntry) (l : List HotEntry) : HotEntry :=
  match l with
  | [] => e
  | x :: xs => if e.recency ≤ (lruOf x xs).recency then e else lruOf x xs

/-- Removes the least-recently-used entry. -/
def evictLRU : List HotEntry → List HotEntry
  | [] => []
  | x :: xs => (x :: xs).erase (lruOf x xs)

/-- Modelled from the spec: §4.3 — insertion of a promoted entry; if the
hot tier is at capacity the least-recently-used entry is evicted first
(its state is discarded, not merged back). -/
def promoteHot (cap : Nat) (hot : List HotEntry) (entry : HotEntry) : List HotEntry :=
  if cap ≤ hot.length then entry :: evictLRU hot else entry :: hot

def msPerSec : Rat := mkRat 1000 1

/-- A GCRA outcome as a per-policy decision (retry time in milliseconds). -/
def toDecision (o : GcraOutcome) : PolicyDecision :=
  { allowed := o.allowed, retryAfterMs := o.retryAfter.map (fun r => qMul r msPerSec) }

/-- Modelled from the spec: §4.3 hot/cold admission for one key in one
shard.  A hot key gets exact GCRA treatment (and an LRU touch); a cold key
is optimistically allowed, its sketch counter conservatively incremented,
and it is promoted with a fresh GCRA state once the estimate reaches
`admissionHitsToPromote`. -/
def shardEval (cfg : EngineConfig) (T tau : Rat) (epoch : Nat) (now : Rat) (key : Nat)
    (s : Shard) : PolicyDecision × Shard :=
  match s.hot.find? (fun h => h.key == key) with
  | some entry =>
    let o := gcraEval T tau now (some entry.tat)
    ( toDecision o,
      { s with
        hot := s.hot.map (fun h =>
          if h.key == key then
            { h with tat := o.tat, lastSeenEpoch := epoch, recency := s.nextRecency }
          else h),
        nextRecency := s.nextRecency + 1 } )
  | none =>
    let sk := sketchIncrement s.sketch key
    let est := sketchEstimate sk key
    if cfg.admissionHitsToPromote ≤ est then
      let o := gcraEval T tau now none
      let entry : HotEntry :=
        { key := key, tat := o.tat, lastSeenEpoch := epoch, recency := s.nextRecency }
      ( toDecision o,
        { s with hot := promoteHot cfg.shardAHotCapacity s.hot entry, sketch := sk,
                 nextRecency := s.nextRecency + 1 } )
    else
      ({ allowed := true, retryAfterMs := none }, { s with sketch := sk })

/-- The matched identity used for key derivation. -/
def identityOf (attrs : List (String × String)) (cm : CompiledMatch) : String :=
  (matchValue attrs cm).getD ""

/-- Modelled from the spec: §2 flow — evaluate one matched policy: derive
the key, route to the key's shard (§4.5), apply hot/cold admission. -/
def evalPolicy (e : Engine) (now : Rat) (r : CheckRequest) (cp : CompiledPolicy) :
    PolicyDecision × Engine :=
  let ident := identityOf (requestAttrs r) cp.pattern
  let key := keyHash e.cfg.keySecret cp.base.id ident
  let i := key % e.cfg.slices
  match e.shards.get? i with
  | none => ({ allowed := true, retryAfterMs := none }, e)
  | some s =>
    let out := shardEval e.cfg (emissionInterval cp.base) (burstTolerance cp.base)
      e.epoch now key s
    (out.1, { e with shards := e.shards.set i out.2 })

/-- Evaluates the matched policies in order, threading the engine state. -/
def evalPolicies (e : Engine) (now : Rat) (r : CheckRequest) :
    List CompiledPolicy → List (CompiledPolicy × PolicyDecision) × Engine
  | [] => ([], e)
  | cp :: cps =>
    let first := evalPolicy e now r cp
    let rest := evalPolicies first.2 now r cps
    ((cp, first.1) :: rest.1, rest.2)

/-- A policy never blocks the overall outcome when marked `annotate`. -/
def isAnnotate (p : FluxgatePolicy) : Bool := p.action == some "annotate"

/-- The matched non-`annotate` policies that denied. -/
def blockingDenials (pds : List (CompiledPolicy × PolicyDecision)) :
    List (CompiledPolicy × PolicyDecision) :=
  pds.filter (fun pd => !isAnnotate pd.1.base && !pd.2.allowed)

/-- The retry times (ms) of the blocking denials. -/
def blockingRetries (pds : List (CompiledPolicy × PolicyDecision)) : List Rat :=
  (blockingDenials pds).filterMap (fun pd => pd.2.retryAfterMs)

def maxRetry : List Rat → Option Rat
  | [] => none
  | r :: rs => some (rs.foldl qMax r)

/-- Modelled from the spec: §4.2 combination — allowed only if all matched
non-`annotate` policies allow (a request matching zero policies is allowed
unconditionally, §4.1); the combined retry time is the maximum across the
blocking denials; every per-policy decision is reported. -/
def Engine.check (e : Engine) (now : Rat) (r : CheckRequest) : CheckResult × Engine :=
  let m := matchedPolicies e.policies r
  let out := evalPolicies e now r m
  ( { allowed := (blockingDenials out.1).isEmpty,
      retryAfterMs := maxRetry (blockingRetries out.1),
      decisions := out.1.map (fun pd => (pd.1.base.id, pd.2)) },
    out.2 )

/-- Modelled from the spec: §5 — `checkBatch` evaluates sequentially in
array order, threading state. -/
def Engine.checkBatch (e : Engine) (now : Rat) : List CheckRequest → List CheckResult × Engine
  | [] => ([], e)
  | r :: rs =>
    let first := Engine.check e now r
    let rest := Engine.checkBatch first.2 now rs
    (first.1 :: rest.1, rest.2)

/-- Modelled from the spec: §4.6 — the configured idle threshold (epochs a
hot entry may stay unseen before the rotation sweep evicts it). -/
def hotIdleEpochs : Nat := 2

/-- Modelled from the spec: §4.6 rotation of one shard — age (halve) all
sketch counters, sweep idle hot entries. -/
def rotateShard (newEpoch : Nat) (s : Shard) : Shard :=
  { s with
    sketch := s.sketch.map (fun row => row.map (fun c => c / 2)),
    hot := s.hot.filter (fun h => newEpoch ≤ h.lastSeenEpoch + hotIdleEpochs) }

/-- Modelled from the spec: §4.6 — advance the epoch and rotate every shard. -/
def Engine.rotate (e : Engine) : Engine :=
  { e with epoch := e.epoch + 1, shards := e.shards.map (rotateShard (e.epoch + 1)) }

/-- Modelled from the spec: §7 — `ConfigError` for bad policies/parameters. -/
inductive InitError where
  | configError (msg : String)
deriving DecidableEq

/-- Modelled from the spec: §4.1/§6 — validate and compile the policy set;
malformed expressions and non-positive parameters are rejected at load. -/
def compilePolicies : List FluxgatePolicy → Except String (List CompiledPolicy)
  | [] => .ok []
  | p :: rest =>
    match compileMatch p.matchExpr with
    | none => .error ("invalid match expression: " ++ p.matchExpr)
    | some cm =>
      if qLe p.limitPerSecond (mkRat 0 1) then .error "limitPerSecond must be positive"
      else if p.burst = 0 then .error "burst must be >= 1"
      else if qLe p.windowSeconds (mkRat 0 1) then .error "windowSeconds must be positive"
      else (compilePolicies rest).map (fun cps => ⟨p, cm⟩ :: cps)

def emptyShard (cfg : EngineConfig) : Shard :=
  { hot := [],
    sketch := List.replicate cfg.sketchDepth (List.replicate cfg.sketchWidth 0),
    nextRecency := 0 }

/-- Modelled from the spec: §6 `initialize(config)` — build the engine,
failing with `ConfigError` on invalid policies or non-positive numeric
parameters.  Defaults for absent optional fields are model choices. -/
def initEngine (init : FluxgateInit) : Except InitError Engine :=
  if init.slices.getD 4 = 0 ∨ init.sketchWidth.getD 64 = 0 ∨ init.sketchDepth.getD 4 = 0 ∨
      init.shardAHotCapacity.getD 128 = 0 ∨ init.admissionHitsToPromote.getD 3 = 0 then
    .error (.configError "non-positive numeric parameter")
  else
    match compilePolicies (init.policies.getD []) with
    | .error m => .error (.configError m)
    | .ok cps =>
      let cfg : EngineConfig :=
        { slices := init.slices.getD 4,
          sketchWidth := init.sketchWidth.getD 64,
          sketchDepth := init.sketchDepth.getD 4,
          shardAHotCapacity := init.shardAHotCapacity.getD 128,
          admissionHitsToPromote := init.admissionHitsToPromote.getD 3,
          keySecret := init.keySecret.getD "" }
      .ok { cfg := cfg, policies := cps, policyVersion := 1, epoch := 0,
            shards := List.replicate cfg.slices (emptyShard cfg) }

/-- Modelled from the spec: §4.7 reload — atomically replace the policy
set (same validation as initialize); shard state is retained. -/
def Engine.reload (e : Engine) (init : FluxgateInit) : Except InitError Engine :=
  match compilePolicies (init.policies.getD []) with
  | .error m => .error (.configError m)
  | .ok cps => .ok { e with policies := cps, policyVersion := e.policyVersion + 1 }

/-! ## Structural lemmas about `check` -/

theorem check_eq (e : Engine) (now : Rat) (r : CheckRequest) :
    Engine.check e now r =
      ( { allowed :=
            (blockingDenials (evalPolicies e now r (matchedPolicies e.policies r)).1).isEmpty,
          retryAfterMs :=
            maxRetry (blockingRetries (evalPolicies e now r (matchedPolicies e.policies r)).1),
          decisions :=
            (evalPolicies e now r (matchedPolicies e.policies r)).1.map
              (fun pd => (pd.1.base.id, pd.2)) },
        (evalPolicies e now r (matchedPolicies e.policies r)).2 ) := rfl

theorem filter_isEmpty_eq_all {α : Type} (p : α → Bool) (l : List α) :
    (l.filter p).isEmpty = l.all (fun x => !p x) := by
  induction l with
  | nil => rfl
  | cons x xs ih =>
    rw [List.filter_cons, List.all_cons]
    cases h : p x <;> simp [h, ih]

theorem foldl_qMax_le (l : List Rat) (a : Rat) :
    a ≤ l.foldl qMax a ∧ ∀ x ∈ l, x ≤ l.foldl qMax a := by
  induction l generalizing a with
  | nil => simp
  | cons x xs ih =>
    have h1 := ih (qMax a x)
    have hax : a ≤ qMax a x ∧ x ≤ qMax a x := by
      rw [qMax_eq]
      exact ⟨le_max_left a x, le_max_right a x⟩
    rw [List.foldl_cons]
    refine ⟨le_trans hax.1 h1.1, ?_⟩
    intro y hy
    rcases List.mem_cons.mp hy with h | h
    · subst h; exact le_trans hax.2 h1.1
    · exact h1.2 y h

theorem foldl_qMax_mem (l : List Rat) (a : Rat) :
    l.foldl qMax a = a ∨ l.foldl qMax a ∈ l := by
  induction l generalizing a with
  | nil => simp
  | cons x xs ih =>
    rw [List.foldl_cons]
    rcases ih (qMax a x) with h | h
    · rw [h, qMax_eq]
      rcases max_choice a x with h2 | h2
      · left; exact h2
      · right; rw [h2]; exact List.mem_cons_self x xs
    · right; exact List.mem_cons_of_mem x h

theorem maxRetry_spec (l : List Rat) (r : Rat) (h : maxRetry l = some r) :
    r ∈ l ∧ ∀ x ∈ l, x ≤ r := by
  cases l with
  | nil => simp [maxRetry] at h
  | cons a as =>
    rw [maxRetry, Option.some.injEq] at h
    subst h
    obtain ⟨h1, h2⟩ := foldl_qMax_le as a
    refine ⟨?_, ?_⟩
    · rcases foldl_qMax_mem as a with h | h
      · rw [h]; exact List.mem_cons_self a as
      · exact List.mem_cons_of_mem a h
    · intro x hx
      rcases List.mem_cons.mp hx with h | h
      · subst h; exact h1
      · exact h2 x h

/-- `maxRetry` really is the maximum: membership plus upper bound,
phrased executably. -/
def isMaxOf (o : Option Rat) (l : List Rat) : Bool :=
  match o with
  | none => l.isEmpty
  | some rr => l.contains rr && l.all (fun x => qLe x rr)

theorem maxRetry_isMaxOf (l : List Rat) : isMaxOf (maxRetry l) l = true := by
  cases hl : maxRetry l with
  | none =>
    cases l with
    | nil => rfl
    | cons a as => simp [maxRetry] at hl
  | some r =>
    obtain ⟨hmem, hbound⟩ := maxRetry_spec l r hl
    rw [isMaxOf, Bool.and_eq_true, List.all_eq_true]
    refine ⟨?_, ?_⟩
    · exact (List.elem_iff).mpr hmem
    · intro x hx
      exact (qLe_iff x r).mpr (hbound x hx)

theorem evalPolicies_fst (now : Rat) (r : CheckRequest) :
    ∀ (cps : List CompiledPolicy) (e : Engine),
      (evalPolicies e now r cps).1.map Prod.fst = cps := by
  intro cps
  induction cps with
  | nil => intro e; rfl
  | cons cp rest ih =>
    intro e
    rw [evalPolicies]
    simp only [List.map_cons]
    rw [ih]

/-- **C3.** A well-formed request matching zero policies is allowed
unconditionally (no default-deny) and the engine state is unchanged;
per-request evaluation is a total Lean function, so it cannot throw. -/
theorem c3_no_match_allows (e : Engine) (now : Rat) (r : CheckRequest)
    (hm : matchedPolicies e.policies r = []) :
    Engine.check e now r = ({ allowed := true, retryAfterMs := none, decisions := [] }, e) := by
  rw [check_eq, hm]
  rfl

/-- A tiny concrete engine configuration for witnesses. -/
def witnessCfg : EngineConfig :=
  { slices := 1, sketchWidth := 4, sketchDepth := 2, shardAHotCapacity := 2,
    admissionHitsToPromote := 2, keySecret := "" }

/-- A concrete engine with no policies. -/
def emptyPolicyEngine : Engine :=
  { cfg := witnessCfg, policies := [], policyVersion := 1, epoch := 0,
    shards := [emptyShard witnessCfg] }

/-- Witness for `c3_no_match_allows`: a request on an engine with no
policies matches nothing and is allowed with unchanged state. -/
theorem c3_no_match_allows_witness :
    matchedPolicies emptyPolicyEngine.policies { ip := some "203.0.113.8" } = [] ∧
    Engine.check emptyPolicyEngine (mkRat 0 1) { ip := some "203.0.113.8" } =
      ({ allowed := true, retryAfterMs := none, decisions := [] }, emptyPolicyEngine) := by
  have hm : matchedPolicies emptyPolicyEngine.policies { ip := some "203.0.113.8" } = [] := by
    decide
  exact ⟨hm, c3_no_match_allows emptyPolicyEngine (mkRat 0 1) { ip := some "203.0.113.8" } hm⟩

/-- **C7 (counterexample).** The check result's per-policy map is *not*
exposed under the name `perPolicyDecisions`: that key is not among the
`CheckResult` fields declared in `js/types.ts`. -/
theorem c7_counterexample : ¬ ("perPolicyDecisions" ∈ CheckResultFieldNames) := by
  decide

/-- **C7 (amended).** `check` returns a record with fields `allowed`,
optional `retryAfterMs`, and the per-policy decision map exposed under the
name `decisions`, keyed by policy id — one entry per matched policy, in
match order. -/
theorem c7_check_result_fields (e : Engine) (now : Rat) (r : CheckRequest) :
    ((Engine.check e now r).1.decisions.map Prod.fst =
      (matchedPolicies e.policies r).map (fun cp => cp.base.id)) ∧
    CheckResultFieldNames = ["allowed", "retryAfterMs", "decisions"] ∧
    "decisions" ∈ CheckResultFieldNames ∧ ¬ ("perPolicyDecisions" ∈ CheckResultFieldNames) := by
  refine ⟨?_, rfl, by decide, by decide⟩
  rw [check_eq]
  simp only [List.map_map]
  have h3 : (Prod.fst ∘ fun pd : CompiledPolicy × PolicyDecision => (pd.1.base.id, pd.2)) =
      ((fun cp : CompiledPolicy => cp.base.id) ∘ Prod.fst) := rfl
  rw [h3, ← List.map_map, evalPolicies_fst]

theorem gcraEval_denied_retry (T tau now : Rat) (prior : Option Rat) :
    (gcraEval T tau now prior).allowed = false →
    (gcraEval T tau now prior).retryAfter.isSome = true := by
  simp only [gcraEval]
  split
  · intro h; simp at h
  · intro _; rfl

theorem toDecision_denied_retry (o : GcraOutcome)
    (h : o.allowed = false → o.retryAfter.isSome = true) :
    (toDecision o).allowed = false → (toDecision o).retryAfterMs.isSome = true := by
  intro hd
  rw [toDecision] at hd ⊢
  have := h hd
  rcases hr : o.retryAfter with _ | rr
  · rw [hr] at this; simp at this
  · simp [hr]

theorem shardEval_denied_retry (cfg : EngineConfig) (T tau : Rat) (epoch : Nat) (now : Rat)
    (key : Nat) (s : Shard) :
    (shardEval cfg T tau epoch now key s).1.allowed = false →
    (shardEval cfg T tau epoch now key s).1.retryAfterMs.isSome = true := by
  rw [shardEval]
  split
  · exact toDecision_denied_retry _ (gcraEval_denied_retry T tau now _)
  · dsimp only
    split
    · exact toDecision_denied_retry _ (gcraEval_denied_retry T tau now _)
    · intro h; simp at h

theorem evalPolicy_denied_retry (e : Engine) (now : Rat) (r : CheckRequest)
    (cp : CompiledPolicy) :
    (evalPolicy e now r cp).1.allowed = false →
    (evalPolicy e now r cp).1.retryAfterMs.isSome = true := by
  rw [evalPolicy]
  split
  · intro h; simp at h
  · exact shardEval_denied_retry _ _ _ _ _ _ _

theorem evalPolicies_denied_retry (now : Rat) (r : CheckRequest) :
    ∀ (cps : List CompiledPolicy) (e : Engine), ∀ pd ∈ (evalPolicies e now r cps).1,
      pd.2.allowed = false → pd.2.retryAfterMs.isSome = true := by
  intro cps
  induction cps with
  | nil => intro e pd h; simp [evalPolicies] at h
  | cons cp rest ih =>
    intro e pd h
    rw [evalPolicies] at h
    rcases List.mem_cons.mp h with h | h
    · subst h; exact evalPolicy_denied_retry e now r cp
    · exact ih _ pd h

theorem blockingDenials_retries_present (now : Rat) (r : CheckRequest)
    (cps : List CompiledPolicy) (e : Engine) :
    ∀ pd ∈ blockingDenials (evalPolicies e now r cps).1, pd.2.retryAfterMs.isSome = true := by
  intro pd hpd
  have hmem : pd ∈ (evalPolicies e now r cps).1 := List.mem_of_mem_filter hpd
  have hden : pd.2.allowed = false := by
    have h2 := (List.mem_filter.mp hpd).2
    rw [Bool.and_eq_true] at h2
    simpa using h2.2
  exact evalPolicies_denied_retry now r cps e pd hmem hden

theorem mem_blockingRetries_of_denial {pds : List (CompiledPolicy × PolicyDecision)}
    {pd : CompiledPolicy × PolicyDecision} {rr : Rat} (hpd : pd ∈ blockingDenials pds)
    (hr : pd.2.retryAfterMs = some rr) : rr ∈ blockingRetries pds :=
  List.mem_filterMap.mpr ⟨pd, hpd, hr⟩

theorem blockingRetries_ne_nil (now : Rat) (r : CheckRequest) (cps : List CompiledPolicy)
    (e : Engine) (h : blockingDenials (evalPolicies e now r cps).1 ≠ []) :
    blockingRetries (evalPolicies e now r cps).1 ≠ [] := by
  cases hbd : blockingDenials (evalPolicies e now r cps).1 with
  | nil => exact absurd hbd h
  | cons pd rest =>
    have hpd : pd ∈ blockingDenials (evalPolicies e now r cps).1 := by
      rw [hbd]; exact List.mem_cons_self _ _
    have hsome := blockingDenials_retries_present now r cps e pd hpd
    rcases hr : pd.2.retryAfterMs with _ | rr
    · rw [hr] at hsome; simp at hsome
    · intro hempty
      have := mem_blockingRetries_of_denial hpd hr
      rw [hempty] at this
      simp at this

theorem maxRetry_isSome_of_ne_nil (l : List Rat) (h : l ≠ []) :
    (maxRetry l).isSome = true := by
  cases l with
  | nil => exact absurd rfl h
  | cons a as => rfl

/-- **C2.** For a request matched by one or more policies: the combined
`allowed` is true exactly when every matched non-`annotate` policy allows
(so an `annotate` policy never changes it); every blocking denial carries
a retry time; when at least one non-`annotate` policy denies, the combined
`retryAfterMs` is present and is the maximum retry across the blocking
denials (member and upper bound); and every per-policy decision — also of
`annotate` policies — is reported in the result's decision map. -/
theorem c2_policy_combination (e : Engine) (now : Rat) (r : CheckRequest)
    (hm : matchedPolicies e.policies r ≠ []) :
    ((Engine.check e now r).1.allowed =
      (evalPolicies e now r (matchedPolicies e.policies r)).1.all
        (fun pd => isAnnotate pd.1.base || pd.2.allowed)) ∧
    ((blockingDenials (evalPolicies e now r (matchedPolicies e.policies r)).1).all
        (fun pd => pd.2.retryAfterMs.isSome) = true) ∧
    ((blockingDenials (evalPolicies e now r (matchedPolicies e.policies r)).1).isEmpty = false →
      ((Engine.check e now r).1.retryAfterMs).isSome = true) ∧
    (isMaxOf (Engine.check e now r).1.retryAfterMs
      (blockingRetries (evalPolicies e now r (matchedPolicies e.policies r)).1) = true) ∧
    ((evalPolicies e now r (matchedPolicies e.policies r)).1.all
      (fun pd => (Engine.check e now r).1.decisions.contains (pd.1.base.id, pd.2)) = true) := by
  refine ⟨?_, ?_, ?_, ?_, ?_⟩
  · rw [check_eq]
    show (blockingDenials (evalPolicies e now r (matchedPolicies e.policies r)).1).isEmpty = _
    rw [blockingDenials, filter_isEmpty_eq_all]
    simp only [Bool.not_and, Bool.not_not]
  · rw [List.all_eq_true]
    intro pd hpd
    exact blockingDenials_retries_present now r (matchedPolicies e.policies r) e pd hpd
  · intro h
    have hne : blockingDenials (evalPolicies e now r (matchedPolicies e.policies r)).1 ≠ [] := by
      intro hnil
      rw [hnil] at h
      simp at h
    have := blockingRetries_ne_nil now r (matchedPolicies e.policies r) e hne
    rw [check_eq]
    exact maxRetry_isSome_of_ne_nil _ this
  · rw [check_eq]
    exact maxRetry_isMaxOf _
  · rw [List.all_eq_true]
    intro pd hpd
    rw [check_eq]
    show List.contains _ _ = true
    exact List.elem_iff.mpr
      (List.mem_map_of_mem (fun pd => (pd.1.base.id, pd.2)) hpd)

def c2PolicyA : FluxgatePolicy :=
  { id := "a", matchExpr := "ip:*", limitPerSecond := mkRat 1 1, burst := 1,
    windowSeconds := mkRat 60 1 }

def c2PolicyB : FluxgatePolicy :=
  { id := "b", matchExpr := "ip:*", limitPerSecond := mkRat 1 1, burst := 1,
    windowSeconds := mkRat 60 1, action := some "annotate" }

def c2Request : CheckRequest := { ip := some "z" }

/-- A one-shard engine where both policies' keys are hot with a far-future
TAT, so both deny at `now = 0`; policy `a` rejects, policy `b` annotates. -/
def c2Shard : Shard :=
  { hot :=
      [ { key := keyHash "" "a" "z", tat := mkRat 100 1, lastSeenEpoch := 0, recency := 0 },
        { key := keyHash "" "b" "z", tat := mkRat 100 1, lastSeenEpoch := 0, recency := 1 } ],
    sketch := List.replicate 2 (List.replicate 4 0), nextRecency := 2 }

def c2Engine : Engine :=
  { cfg := witnessCfg,
    policies := [⟨c2PolicyA, .wildcard "ip"⟩, ⟨c2PolicyB, .wildcard "ip"⟩],
    policyVersion := 1, epoch := 0,
    shards := [c2Shard] }

/-- Witness for `c2_policy_combination` on the spec's concrete scenario:
one rejecting and one annotate policy both deny. -/
theorem c2_policy_combination_witness :
    (matchedPolicies c2Engine.policies c2Request ≠ []) ∧
    (((Engine.check c2Engine (mkRat 0 1) c2Request).1.allowed =
      (evalPolicies c2Engine (mkRat 0 1) c2Request
          (matchedPolicies c2Engine.policies c2Request)).1.all
        (fun pd => isAnnotate pd.1.base || pd.2.allowed)) ∧
    ((blockingDenials (evalPolicies c2Engine (mkRat 0 1) c2Request
          (matchedPolicies c2Engine.policies c2Request)).1).all
        (fun pd => pd.2.retryAfterMs.isSome) = true) ∧
    ((blockingDenials (evalPolicies c2Engine (mkRat 0 1) c2Request
          (matchedPolicies c2Engine.policies c2Request)).1).isEmpty = false →
      ((Engine.check c2Engine (mkRat 0 1) c2Request).1.retryAfterMs).isSome = true) ∧
    (isMaxOf (Engine.check c2Engine (mkRat 0 1) c2Request).1.retryAfterMs
      (blockingRetries (evalPolicies c2Engine (mkRat 0 1) c2Request
          (matchedPolicies c2Engine.policies c2Request)).1) = true) ∧
    ((evalPolicies c2Engine (mkRat 0 1) c2Request
          (matchedPolicies c2Engine.policies c2Request)).1.all
      (fun pd => (Engine.check c2Engine (mkRat 0 1) c2Request).1.decisions.contains
        (pd.1.base.id, pd.2)) = true)) :=
  ⟨by decide, c2_policy_combination c2Engine (mkRat 0 1) c2Request (by decide)⟩

/-- **C6.** `checkBatch` returns one decision per request in order: the
output has the input's length, and the `i`-th decision is exactly the
decision of `check` on the `i`-th request run in the engine state produced
by the first `i` requests of the same call (sequential evaluation, so a
later entry observes state mutated by earlier entries). -/
theorem c6_batch_order (now : Rat) (reqs : List CheckRequest) (e : Engine) :
    ((Engine.checkBatch e now reqs).1.length = reqs.length) ∧
    (∀ i r, reqs.get? i = some r →
      (Engine.checkBatch e now reqs).1.get? i =
        some (Engine.check (Engine.checkBatch e now (reqs.take i)).2 now r).1) := by
  induction reqs generalizing e with
  | nil =>
    refine ⟨rfl, ?_⟩
    intro i r h
    simp at h
  | cons q qs ih =>
    constructor
    · rw [Engine.checkBatch]
      simp only [List.length_cons]
      rw [(ih (Engine.check e now q).2).1]
    · intro i r h
      cases i with
      | zero =>
        simp only [List.get?] at h
        have hq : q = r := by injection h
        subst hq
        rfl
      | succ j =>
        have h2 : qs.get? j = some r := h
        exact (ih (Engine.check e now q).2).2 j r h2

/-- Witness for `c6_batch_order`: a concrete two-request batch, inspecting
the second entry. -/
theorem c6_batch_order_witness :
    ((Engine.checkBatch c2Engine (mkRat 0 1) [c2Request, c2Request]).1.length =
      ([c2Request, c2Request] : List CheckRequest).length) ∧
    (([c2Request, c2Request] : List CheckRequest).get? 1 = some c2Request) ∧
    ((Engine.checkBatch c2Engine (mkRat 0 1) [c2Request, c2Request]).1.get? 1 =
      some (Engine.check
        (Engine.checkBatch c2Engine (mkRat 0 1)
          (([c2Request, c2Request] : List CheckRequest).take 1)).2
        (mkRat 0 1) c2Request).1) :=
  ⟨(c6_batch_order (mkRat 0 1) [c2Request, c2Request] c2Engine).1, rfl,
    (c6_batch_order (mkRat 0 1) [c2Request, c2Request] c2Engine).2 1 c2Request rfl⟩

/-! ## Snapshot codec (spec §4.8) — modelled from the spec

Serialized state is a sequence of numeric tokens: a version marker, the
policy-set version, the epoch, then each shard's hot entries (count-
prefixed), sketch rows (count- and length-prefixed) and recency counter. -/

def encInt : Int → Nat
  | .ofNat n => 2 * n
  | .negSucc n => 2 * n + 1

def decInt (k : Nat) : Int :=
  if k % 2 = 0 then Int.ofNat (k / 2) else Int.negSucc (k / 2)

theorem decInt_encInt (z : Int) : decInt (encInt z) = z := by
  cases z with
  | ofNat n =>
    rw [encInt, decInt, if_pos (by omega)]
    congr 1
    omega
  | negSucc n =>
    rw [encInt, decInt, if_neg (by omega)]
    congr 1
    omega

def encEntry (h : HotEntry) : List Nat :=
  [h.key, encInt h.tat.num, h.tat.den, h.lastSeenEpoch, h.recency]

def decEntry : List Nat → Option (HotEntry × List Nat)
  | k :: a :: b :: ls :: rc :: rest =>
    some ({ key := k, tat := mkRat (decInt a) b, lastSeenEpoch := ls, recency := rc }, rest)
  | _ => none

theorem decEntry_enc (h : HotEntry) (r : List Nat) :
    decEntry (encEntry h ++ r) = some (h, r) := by
  simp [encEntry, decEntry, decInt_encInt, Rat.mkRat_self]

def decEntries : Nat → List Nat → Option (List HotEntry × List Nat)
  | 0, rest => some ([], rest)
  | n + 1, bytes =>
    match decEntry bytes with
    | none => none
    | some (h, rest) =>
      match decEntries n rest with
      | none => none
      | some (hs, rest2) => some (h :: hs, rest2)

theorem decEntries_enc (l : List HotEntry) (r : List Nat) :
    decEntries l.length ((l.map encEntry).flatten ++ r) = some (l, r) := by
  induction l generalizing r with
  | nil => rfl
  | cons h t ih =>
    simp only [List.map_cons, List.flatten_cons, List.append_assoc, List.length_cons,
      decEntries, decEntry_enc, ih]

def encRow (row : List Nat) : List Nat := row.length :: row

def decRow : List Nat → Option (List Nat × List Nat)
  | [] => none
  | len :: rest =>
    if len ≤ rest.length then some (rest.take len, rest.drop len) else none

theorem decRow_enc (row : List Nat) (r : List Nat) :
    decRow (encRow row ++ r) = some (row, r) := by
  rw [encRow]
  show decRow (row.length :: (row ++ r)) = some (row, r)
  rw [decRow, if_pos (by simp), List.take_left, List.drop_left]

def decRows : Nat → List Nat → Option (List (List Nat) × List Nat)
  | 0, rest => some ([], rest)
  | n + 1, bytes =>
    match decRow bytes with
    | none => none
    | some (row, rest) =>
      match decRows n rest with
      | none => none
      | some (rows, rest2) => some (row :: rows, rest2)

theorem decRows_enc (rows : List (List Nat)) (r : List Nat) :
    decRows rows.length ((rows.map encRow).flatten ++ r) = some (rows, r) := by
  induction rows generalizing r with
  | nil => rfl
  | cons row t ih =>
    simp only [List.map_cons, List.flatten_cons, List.append_assoc, List.length_cons,
      decRows, decRow_enc, ih]

/-- Modelled from the spec: §4.8 — one shard's serialized form: hot entry
count and entries, sketch row count and rows, recency counter. -/
def encShard (s : Shard) : List Nat :=
  [s.hot.length] ++ (s.hot.map encEntry).flatten ++ [s.sketch.length] ++
    (s.sketch.map encRow).flatten ++ [s.nextRecency]

def decShard : List Nat → Option (Shard × List Nat)
  | [] => none
  | hc :: rest =>
    match decEntries hc rest with
    | none => none
    | some (hot, rest1) =>
      match rest1 with
      | [] => none
      | sc :: rest2 =>
        match decRows sc rest2 with
        | none => none
        | some (rows, rest3) =>
          match rest3 with
          | [] => none
          | nr :: rest4 => some ({ hot := hot, sketch := rows, nextRecency := nr }, rest4)

theorem decShard_enc (s : Shard) (r : List Nat) :
    decShard (encShard s ++ r) = some (s, r) := by
  have h1 : encShard s ++ r =
      s.hot.length :: ((s.hot.map encEntry).flatten ++ (s.sketch.length ::
        ((s.sketch.map encRow).flatten ++ (s.nextRecency :: r)))) := by
    rw [encShard]
    simp [List.append_assoc]
  rw [h1]
  simp only [decShard, decEntries_enc, decRows_enc]

def decShards : Nat → List Nat → Option (List Shard × List Nat)
  | 0, rest => some ([], rest)
  | n + 1, bytes =>
    match decShard bytes with
    | none => none
    | some (s, rest) =>
      match decShards n rest with
      | none => none
      | some (ss, rest2) => some (s :: ss, rest2)

theorem decShards_enc (ss : List Shard) (r : List Nat) :
    decShards ss.length ((ss.map encShard).flatten ++ r) = some (ss, r) := by
  induction ss generalizing r with
  | nil => rfl
  | cons s t ih =>
    simp only [List.map_cons, List.flatten_cons, List.append_assoc, List.length_cons,
      decShards, decShard_enc, ih]

/-- The snapshot format's version marker. -/
def snapshotVersion : Nat := 1

/-- Modelled from the spec: §4.8 — snapshot serializes the version marker
of the active policy set, the engine epoch, and every shard's hot tier and
sketch grid. -/
def Engine.snapshotBytes (e : Engine) : List Nat :=
  [snapshotVersion, e.policyVersion, e.epoch, e.shards.length] ++ (e.shards.map encShard).flatten

/-- Modelled from the spec: §4.8/§7 — the restore failure taxonomy. -/
inductive RestoreError where
  | formatError
  | corruptionError
deriving DecidableEq

/-- Modelled from the spec: §4.8 — decode a snapshot: `formatError` when
the version marker is unrecognized, `corruptionError` when the declared
counts do not match the actual payload. -/
def decodeSnapshot (bytes : List Nat) : Except RestoreError (Nat × Nat × List Shard) :=
  match bytes with
  | [] => .error .formatError
  | v :: rest =>
    if v = snapshotVersion then
      match rest with
      | pv :: ep :: sc :: rest2 =>
        match decShards sc rest2 with
        | some (shards, []) => .ok (pv, ep, shards)
        | _ => .error .corruptionError
      | _ => .error .corruptionError
    else .error .formatError

/-- Modelled from the spec: §4.8 — restore decodes into a fresh engine and
swaps wholesale, or rejects leaving the live engine untouched. -/
def Engine.restoreApply (live : Engine) (bytes : List Nat) : Engine × Option RestoreError :=
  match decodeSnapshot bytes with
  | .ok (pv, ep, shards) =>
    ({ cfg := live.cfg, policies := live.policies, policyVersion := pv, epoch := ep,
       shards := shards }, none)
  | .error err => (live, some err)

theorem decodeSnapshot_enc (e : Engine) :
    decodeSnapshot (Engine.snapshotBytes e) = .ok (e.policyVersion, e.epoch, e.shards) := by
  have h1 : Engine.snapshotBytes e =
      snapshotVersion :: e.policyVersion :: e.epoch :: e.shards.length ::
        ((e.shards.map encShard).flatten ++ []) := by
    rw [Engine.snapshotBytes]
    simp
  rw [h1]
  simp only [decodeSnapshot, decShards_enc, eq_self_iff_true, if_true]

/-- **C4.** Restoring a snapshot into a fresh engine (same configuration
and policy set) succeeds and reproduces the snapshotted engine exactly, so
every subsequent input sequence yields identical decisions. -/
theorem c4_snapshot_roundtrip (live e : Engine) (h1 : live.cfg = e.cfg)
    (h2 : live.policies = e.policies) (now : Rat) (reqs : List CheckRequest) :
    (Engine.restoreApply live (Engine.snapshotBytes e)).2 = none ∧
    Engine.checkBatch (Engine.restoreApply live (Engine.snapshotBytes e)).1 now reqs =
      Engine.checkBatch e now reqs := by
  have hr : Engine.restoreApply live (Engine.snapshotBytes e) = (e, none) := by
    rw [Engine.restoreApply]
    simp only [decodeSnapshot_enc]
    rw [h1, h2]
  rw [hr]
  exact ⟨rfl, rfl⟩

/-- A fresh engine sharing `c2Engine`'s configuration and policy set. -/
def c2EngineFresh : Engine :=
  { cfg := witnessCfg,
    policies := [⟨c2PolicyA, .wildcard "ip"⟩, ⟨c2PolicyB, .wildcard "ip"⟩],
    policyVersion := 1, epoch := 0,
    shards := [emptyShard witnessCfg] }

/-- Witness for `c4_snapshot_roundtrip`: snapshot the stateful `c2Engine`
and restore it into the fresh engine. -/
theorem c4_snapshot_roundtrip_witness :
    (c2EngineFresh.cfg = c2Engine.cfg) ∧ (c2EngineFresh.policies = c2Engine.policies) ∧
    ((Engine.restoreApply c2EngineFresh (Engine.snapshotBytes c2Engine)).2 = none ∧
      Engine.checkBatch (Engine.restoreApply c2EngineFresh
          (Engine.snapshotBytes c2Engine)).1 (mkRat 0 1) [c2Request] =
        Engine.checkBatch c2Engine (mkRat 0 1) [c2Request]) :=
  ⟨rfl, rfl,
    c4_snapshot_roundtrip c2EngineFresh c2Engine rfl rfl (mkRat 0 1) [c2Request]⟩

/-- `true` when the byte sequence is empty or starts with an unrecognized
version marker. -/
def headMismatch (bytes : List Nat) : Bool :=
  match bytes with
  | [] => true
  | v :: _ => v != snapshotVersion

/-- **C5.** Restore fails with `formatError` whenever the leading version
marker is unrecognized (or absent); appending surplus bytes to a valid
snapshot — declared counts no longer matching the payload length — fails
with `corruptionError`; and every failure leaves the live engine exactly
unchanged. -/
theorem c5_restore_errors (live : Engine) (bytes : List Nat) (e : Engine)
    (extra : List Nat) :
    (headMismatch bytes = true →
      Engine.restoreApply live bytes = (live, some RestoreError.formatError)) ∧
    (extra ≠ [] →
      Engine.restoreApply live (Engine.snapshotBytes e ++ extra) =
        (live, some RestoreError.corruptionError)) ∧
    ((Engine.restoreApply live bytes).2.isSome = true →
      (Engine.restoreApply live bytes).1 = live) := by
  refine ⟨?_, ?_, ?_⟩
  · intro hmis
    cases bytes with
    | nil => rfl
    | cons v rest =>
      have hv : ¬ (v = snapshotVersion) := by
        rw [headMismatch] at hmis
        simpa using hmis
      rw [Engine.restoreApply]
      simp only [decodeSnapshot, if_neg hv]
  · intro hextra
    cases hx : extra with
    | nil => exact absurd hx hextra
    | cons x xs =>
      subst hx
      have hd : decodeSnapshot (Engine.snapshotBytes e ++ (x :: xs)) =
          .error .corruptionError := by
        have h1 : Engine.snapshotBytes e ++ (x :: xs) =
            snapshotVersion :: e.policyVersion :: e.epoch :: e.shards.length ::
              ((e.shards.map encShard).flatten ++ (x :: xs)) := by
          rw [Engine.snapshotBytes]
          simp [List.append_assoc]
        rw [h1]
        simp only [decodeSnapshot, decShards_enc, eq_self_iff_true, if_true]
      rw [Engine.restoreApply]
      simp only [hd]
  · intro hsome
    rw [Engine.restoreApply] at hsome ⊢
    cases hdec : decodeSnapshot bytes with
    | ok v => rw [hdec] at hsome; simp at hsome
    | error err => rfl

/-- Witness for `c5_restore_errors`: a bad version marker `[99]`, and a
valid snapshot with one surplus byte. -/
theorem c5_restore_errors_witness :
    (headMismatch [99] = true) ∧
    (Engine.restoreApply c2Engine [99] = (c2Engine, some RestoreError.formatError)) ∧
    (([7] : List Nat) ≠ []) ∧
    (Engine.restoreApply c2Engine (Engine.snapshotBytes emptyPolicyEngine ++ [7]) =
      (c2Engine, some RestoreError.corruptionError)) ∧
    ((Engine.restoreApply c2Engine [99]).2.isSome = true →
      (Engine.restoreApply c2Engine [99]).1 = c2Engine) :=
  ⟨by decide,
    (c5_restore_errors c2Engine [99] emptyPolicyEngine [7]).1 (by decide),
    by decide,
    (c5_restore_errors c2Engine [99] emptyPolicyEngine [7]).2.1 (by decide),
    (c5_restore_errors c2Engine [99] emptyPolicyEngine [7]).2.2⟩

/-! ## Hot-tier capacity invariant (spec §4.3) -/

theorem lruOf_mem (l : List HotEntry) (e : HotEntry) : lruOf e l ∈ e :: l := by
  induction l generalizing e with
  | nil => exact List.mem_cons_self _ _
  | cons x xs ih =>
    rw [lruOf]
    by_cases h : e.recency ≤ (lruOf x xs).recency
    · rw [if_pos h]; exact List.mem_cons_self _ _
    · rw [if_neg h]; exact List.mem_cons_of_mem e (ih x)

theorem lruOf_min (l : List HotEntry) (e : HotEntry) :
    ∀ y ∈ e :: l, (lruOf e l).recency ≤ y.recency := by
  induction l generalizing e with
  | nil =>
    intro y hy
    rcases List.mem_cons.mp hy with h | h
    · subst h; exact le_refl _
    · simp at h
  | cons x xs ih =>
    intro y hy
    rw [lruOf]
    by_cases h : e.recency ≤ (lruOf x xs).recency
    · rw [if_pos h]
      rcases List.mem_cons.mp hy with h2 | h2
      · subst h2; exact le_refl _
      · exact le_trans h (ih x y h2)
    · rw [if_neg h]
      rcases List.mem_cons.mp hy with h2 | h2
      · subst h2; exact le_of_lt (lt_of_not_le h)
      · exact ih x y h2

theorem promoteHot_at_cap (cap : Nat) (h : HotEntry) (t : List HotEntry) (entry : HotEntry)
    (hlen : (h :: t).length = cap) :
    promoteHot cap (h :: t) entry = entry :: (h :: t).erase (lruOf h t) ∧
    (promoteHot cap (h :: t) entry).length = (h :: t).length := by
  have hle : cap ≤ (h :: t).length := le_of_eq hlen.symm
  have heq : promoteHot cap (h :: t) entry = entry :: (h :: t).erase (lruOf h t) := by
    rw [promoteHot, if_pos hle]
    rfl
  refine ⟨heq, ?_⟩
  rw [heq, List.length_cons, List.length_erase_add_one (lruOf_mem t h)]

theorem promoteHot_length_le (cap : Nat) (hot : List HotEntry) (entry : HotEntry)
    (hcap : 1 ≤ cap) (hlen : hot.length ≤ cap) :
    (promoteHot cap hot entry).length ≤ cap := by
  by_cases h : cap ≤ hot.length
  · have heq : hot.length = cap := le_antisymm hlen h
    cases hot with
    | nil => rw [List.length_nil] at heq; omega
    | cons x xs =>
      rw [(promoteHot_at_cap cap x xs entry heq).2, heq]
  · rw [promoteHot, if_neg h, List.length_cons]
    omega

theorem shardEval_hot_le (cfg : EngineConfig) (T tau : Rat) (epoch : Nat) (now : Rat)
    (key : Nat) (s : Shard) (hcap : 1 ≤ cfg.shardAHotCapacity)
    (hs : s.hot.length ≤ cfg.shardAHotCapacity) :
    (shardEval cfg T tau epoch now key s).2.hot.length ≤ cfg.shardAHotCapacity := by
  rw [shardEval]
  split
  · simpa using hs
  · dsimp only
    split
    · exact promoteHot_length_le _ _ _ hcap hs
    · exact hs

theorem evalPolicy_cfg (e : Engine) (now : Rat) (r : CheckRequest) (cp : CompiledPolicy) :
    (evalPolicy e now r cp).2.cfg = e.cfg := by
  rw [evalPolicy]
  split
  · rfl
  · rfl

/-- The per-shard hot-tier bound, stated executably. -/
def hotWithinCap (e : Engine) : Bool :=
  e.shards.all (fun s => decide (s.hot.length ≤ e.cfg.shardAHotCapacity))

theorem hotWithinCap_iff (e : Engine) :
    hotWithinCap e = true ↔ ∀ s ∈ e.shards, s.hot.length ≤ e.cfg.shardAHotCapacity := by
  rw [hotWithinCap, List.all_eq_true]
  constructor
  · intro h s hs; exact of_decide_eq_true (h s hs)
  · intro h s hs; exact decide_eq_true (h s hs)

theorem evalPolicy_inv (e : Engine) (now : Rat) (r : CheckRequest) (cp : CompiledPolicy)
    (hcap : 1 ≤ e.cfg.shardAHotCapacity)
    (hinv : ∀ s ∈ e.shards, s.hot.length ≤ e.cfg.shardAHotCapacity) :
    ∀ s ∈ (evalPolicy e now r cp).2.shards,
      s.hot.length ≤ (evalPolicy e now r cp).2.cfg.shardAHotCapacity := by
  rw [evalPolicy]
  split
  · intro s hs; exact hinv s hs
  · next s0 heq =>
    intro s hs
    simp only at hs
    rcases List.mem_or_eq_of_mem_set hs with h | h
    · exact hinv s h
    · subst h
      exact shardEval_hot_le _ _ _ _ _ _ s0 hcap (hinv s0 (List.get?_mem heq))

theorem evalPolicies_inv (now : Rat) (r : CheckRequest) :
    ∀ (cps : List CompiledPolicy) (e : Engine),
      1 ≤ e.cfg.shardAHotCapacity →
      (∀ s ∈ e.shards, s.hot.length ≤ e.cfg.shardAHotCapacity) →
      (evalPolicies e now r cps).2.cfg = e.cfg ∧
      ∀ s ∈ (evalPolicies e now r cps).2.shards,
        s.hot.length ≤ (evalPolicies e now r cps).2.cfg.shardAHotCapacity := by
  intro cps
  induction cps with
  | nil => intro e _ hinv; exact ⟨rfl, hinv⟩
  | cons cp rest ih =>
    intro e hcap hinv
    rw [evalPolicies]
    have hc := evalPolicy_cfg e now r cp
    have h1 := evalPolicy_inv e now r cp hcap hinv
    have := ih (evalPolicy e now r cp).2 (by rw [hc]; exact hcap) h1
    exact ⟨by rw [this.1, hc], this.2⟩

theorem check_inv (e : Engine) (now : Rat) (r : CheckRequest)
    (hcap : 1 ≤ e.cfg.shardAHotCapacity)
    (hinv : ∀ s ∈ e.shards, s.hot.length ≤ e.cfg.shardAHotCapacity) :
    (Engine.check e now r).2.cfg = e.cfg ∧
    ∀ s ∈ (Engine.check e now r).2.shards,
      s.hot.length ≤ (Engine.check e now r).2.cfg.shardAHotCapacity := by
  rw [check_eq]
  exact evalPolicies_inv now r (matchedPolicies e.policies r) e hcap hinv

theorem checkBatch_inv (now : Rat) :
    ∀ (reqs : List CheckRequest) (e : Engine),
      1 ≤ e.cfg.shardAHotCapacity →
      (∀ s ∈ e.shards, s.hot.length ≤ e.cfg.shardAHotCapacity) →
      (Engine.checkBatch e now reqs).2.cfg = e.cfg ∧
      ∀ s ∈ (Engine.checkBatch e now reqs).2.shards,
        s.hot.length ≤ (Engine.checkBatch e now reqs).2.cfg.shardAHotCapacity := by
  intro reqs
  induction reqs with
  | nil => intro e _ hinv; exact ⟨rfl, hinv⟩
  | cons q qs ih =>
    intro e hcap hinv
    rw [Engine.checkBatch]
    have h1 := check_inv e now q hcap hinv
    have := ih (Engine.check e now q).2 (by rw [h1.1]; exact hcap) h1.2
    exact ⟨by rw [this.1, h1.1], this.2⟩

theorem rotate_inv (e : Engine)
    (hinv : ∀ s ∈ e.shards, s.hot.length ≤ e.cfg.shardAHotCapacity) :
    (Engine.rotate e).cfg = e.cfg ∧
    ∀ s ∈ (Engine.rotate e).shards,
      s.hot.length ≤ (Engine.rotate e).cfg.shardAHotCapacity := by
  refine ⟨rfl, ?_⟩
  intro s hs
  rw [Engine.rotate] at hs
  simp only at hs
  rcases List.mem_map.mp hs with ⟨s0, hs0, hmap⟩
  subst hmap
  rw [rotateShard]
  exact le_trans (List.length_filter_le _ _) (hinv s0 hs0)

/-- Engine states reachable through the public operations: initialize,
check, checkBatch, rotate, reload, and restore of a snapshot taken from a
reachable engine (with matching configuration). -/
inductive Reachable : Engine → Prop where
  | init (cfg : FluxgateInit) (e : Engine) : initEngine cfg = .ok e → Reachable e
  | step_check (e : Engine) (now : Rat) (r : CheckRequest) :
      Reachable e → Reachable (Engine.check e now r).2
  | step_batch (e : Engine) (now : Rat) (rs : List CheckRequest) :
      Reachable e → Reachable (Engine.checkBatch e now rs).2
  | step_rotate (e : Engine) : Reachable e → Reachable (Engine.rotate e)
  | step_reload (e e2 : Engine) (cfg : FluxgateInit) :
      Reachable e → Engine.reload e cfg = .ok e2 → Reachable e2
  | step_restore (live e e2 : Engine) :
      Reachable live → Reachable e → live.cfg = e.cfg →
      Engine.restoreApply live (Engine.snapshotBytes e) = (e2, none) → Reachable e2

theorem engineInv_of_reachable (e : Engine) (he : Reachable e) :
    1 ≤ e.cfg.shardAHotCapacity ∧
    ∀ s ∈ e.shards, s.hot.length ≤ e.cfg.shardAHotCapacity := by
  induction he with
  | init cfg0 e0 h =>
    rw [initEngine] at h
    by_cases hcond : cfg0.slices.getD 4 = 0 ∨ cfg0.sketchWidth.getD 64 = 0 ∨
        cfg0.sketchDepth.getD 4 = 0 ∨ cfg0.shardAHotCapacity.getD 128 = 0 ∨
        cfg0.admissionHitsToPromote.getD 3 = 0
    · rw [if_pos hcond] at h
      exact absurd h (by simp)
    · rw [if_neg hcond] at h
      cases hcomp : compilePolicies (cfg0.policies.getD []) with
      | error m => rw [hcomp] at h; exact absurd h (by simp)
      | ok cps =>
        rw [hcomp] at h
        dsimp only at h
        injection h with h2
        subst h2
        have hcap : cfg0.shardAHotCapacity.getD 128 ≠ 0 := by
          intro hzero
          exact hcond (Or.inr (Or.inr (Or.inr (Or.inl hzero))))
        refine ⟨Nat.one_le_iff_ne_zero.mpr hcap, ?_⟩
        intro s hs
        have := List.eq_of_mem_replicate hs
        subst this
        rw [emptyShard]
        exact Nat.zero_le _
  | step_check e0 now r _ ih =>
    have h := check_inv e0 now r ih.1 ih.2
    exact ⟨by rw [h.1]; exact ih.1, h.2⟩
  | step_batch e0 now rs _ ih =>
    have h := checkBatch_inv now rs e0 ih.1 ih.2
    exact ⟨by rw [h.1]; exact ih.1, h.2⟩
  | step_rotate e0 _ ih =>
    have h := rotate_inv e0 ih.2
    exact ⟨by rw [h.1]; exact ih.1, h.2⟩
  | step_reload e0 e2 cfg0 _ hrel ih =>
    rw [Engine.reload] at hrel
    cases hcomp : compilePolicies (cfg0.policies.getD []) with
    | error m => rw [hcomp] at hrel; exact absurd hrel (by simp)
    | ok cps =>
      rw [hcomp] at hrel
      dsimp only at hrel
      injection hrel with h2
      subst h2
      exact ih
  | step_restore live e0 e2 _ _ hcfg hres ihlive ihe =>
    rw [Engine.restoreApply] at hres
    rw [decodeSnapshot_enc] at hres
    dsimp only at hres
    have h2 := congrArg Prod.fst hres
    dsimp only at h2
    subst h2
    refine ⟨?_, ?_⟩
    · show 1 ≤ live.cfg.shardAHotCapacity
      rw [hcfg]
      exact ihe.1
    · show ∀ s ∈ e0.shards, s.hot.length ≤ live.cfg.shardAHotCapacity
      intro s hs
      rw [hcfg]
      exact ihe.2 s hs

/-- **C8.** In every reachable engine state each shard's hot tier holds at
most `shardAHotCapacity` entries; and an insertion attempted while the hot
tier is at capacity evicts exactly one entry — the least-recently-used one
(minimal recency marker) — before the new entry is added, leaving the size
at capacity. -/
theorem c8_hot_capacity (e : Engine) (he : Reachable e) :
    (hotWithinCap e = true) ∧
    (∀ h t entry, (h :: t : List HotEntry).length = e.cfg.shardAHotCapacity →
      promoteHot e.cfg.shardAHotCapacity (h :: t) entry =
        entry :: (h :: t).erase (lruOf h t) ∧
      lruOf h t ∈ h :: t ∧
      ((h :: t).all fun x => decide ((lruOf h t).recency ≤ x.recency)) = true ∧
      (promoteHot e.cfg.shardAHotCapacity (h :: t) entry).length = (h :: t).length) := by
  have hinv := engineInv_of_reachable e he
  refine ⟨(hotWithinCap_iff e).mpr hinv.2, ?_⟩
  intro h t entry hlen
  obtain ⟨heq, hlen2⟩ := promoteHot_at_cap _ h t entry hlen
  refine ⟨heq, lruOf_mem t h, ?_, hlen2⟩
  rw [List.all_eq_true]
  intro x hx
  exact decide_eq_true (lruOf_min t h x hx)

def c8Init : FluxgateInit :=
  { policies := some [], slices := some 1, sketchWidth := some 1, sketchDepth := some 1,
    shardAHotCapacity := some 1, admissionHitsToPromote := some 1, keySecret := some "" }

def c8Engine : Engine :=
  { cfg := { slices := 1, sketchWidth := 1, sketchDepth := 1, shardAHotCapacity := 1,
             admissionHitsToPromote := 1, keySecret := "" },
    policies := [], policyVersion := 1, epoch := 0,
    shards := [{ hot := [], sketch := [[0]], nextRecency := 0 }] }

def c8EntryA : HotEntry := { key := 0, tat := mkRat 0 1, lastSeenEpoch := 0, recency := 5 }

def c8EntryB : HotEntry := { key := 1, tat := mkRat 0 1, lastSeenEpoch := 0, recency := 7 }

/-- Witness for `c8_hot_capacity`: the engine built by `initEngine c8Init`
(capacity 1), with a concrete full hot tier `[c8EntryA]` receiving the new
entry `c8EntryB`. -/
theorem c8_hot_capacity_witness :
    (initEngine c8Init = .ok c8Engine) ∧
    (hotWithinCap c8Engine = true) ∧
    (([c8EntryA] : List HotEntry).length = c8Engine.cfg.shardAHotCapacity) ∧
    (promoteHot c8Engine.cfg.shardAHotCapacity [c8EntryA] c8EntryB =
        c8EntryB :: ([c8EntryA] : List HotEntry).erase (lruOf c8EntryA []) ∧
      lruOf c8EntryA [] ∈ ([c8EntryA] : List HotEntry) ∧
      (([c8EntryA] : List HotEntry).all fun x =>
        decide ((lruOf c8EntryA []).recency ≤ x.recency)) = true ∧
      (promoteHot c8Engine.cfg.shardAHotCapacity [c8EntryA] c8EntryB).length =
        ([c8EntryA] : List HotEntry).length) := by
  have hinit : initEngine c8Init = .ok c8Engine := by rfl
  have hr : Reachable c8Engine := Reachable.init c8Init c8Engine hinit
  have hc8 := c8_hot_capacity c8Engine hr
  exact ⟨hinit, hc8.1, by decide, hc8.2 c8EntryA [] c8EntryB (by decide)⟩

/-! ## The TypeScript wrapper (`js/index.ts`) -/

/-- The JavaScript `Uint8Array` type, as a byte list. -/
structure Uint8Array where
  data : List Nat
deriving DecidableEq

/-- A JavaScript value returned by the binding's `snapshot()`: either
already a `Uint8Array` or some array-like of bytes. -/
inductive JsBytes where
  | u8 (arr : Uint8Array)
  | arrayLike (data : List Nat)
deriving DecidableEq

/-- `js/index.ts` `snapshot()`:
`bytes instanceof Uint8Array ? bytes : new Uint8Array(bytes)`. -/
def jsToUint8Array : JsBytes → Uint8Array
  | .u8 a => a
  | .arrayLike d => ⟨d⟩

/-- The byte contents of either form. -/
def JsBytes.contents : JsBytes → List Nat
  | .u8 a => a.data
  | .arrayLike d => d

/-- The raw `WasmFluxgate` binding instance: methods over JSON strings,
exactly the calls `js/index.ts` makes on it. -/
structure WasmInstance where
  check : String → String
  check_batch : String → String
  rotate : Unit → Unit
  reload : String → Unit
  snapshot : Unit → JsBytes
  restore : Uint8Array → Unit
  metrics : Unit → String
  version : Unit → String

/-- The loaded WASM module: it may or may not export the `WasmFluxgate`
constructor (`(wasm as any).WasmFluxgate`). -/
structure WasmModule where
  WasmFluxgate : Option (String → WasmInstance)

/-- Host JSON functions (`JSON.stringify` / `JSON.parse` at the types the
wrapper uses them). -/
structure JsJson where
  stringifyReq : CheckRequest → String
  stringifyReqList : List CheckRequest → String
  stringifyInit : FluxgateInit → String
  parseResult : String → CheckResult
  parseResultList : String → List CheckResult
  parseMetrics : String → List (String × Rat)

/-- `js/types.ts`: the `Fluxgate` interface returned by `createFluxgate`. -/
structure Fluxgate where
  check : CheckRequest → CheckResult
  checkBatch : List CheckRequest → List CheckResult
  rotate : Unit → Unit
  reload : FluxgateInit → Unit
  snapshot : Unit → Uint8Array
  restore : Uint8Array → Unit
  metrics : Unit → List (String × Rat)
  version : Unit → String

/-- The error message thrown by `createFluxgate` when the constructor is
missing. -/
def missingCtorMsg : String :=
  "WasmFluxgate constructor is not available. Did you run `wasm-pack build`?"

/-- `js/index.ts` `createFluxgate`: throws when the module does not export
`WasmFluxgate`; otherwise constructs the instance from the stringified
init and returns the eight wrapper methods. -/
def createFluxgate (J : JsJson) (wasm : WasmModule) (init : FluxgateInit) :
    Except String Fluxgate :=
  match wasm.WasmFluxgate with
  | none => .error missingCtorMsg
  | some ctor =>
    let inst := ctor (J.stringifyInit init)
    .ok
      { check := fun req => J.parseResult (inst.check (J.stringifyReq req)),
        checkBatch := fun reqs => J.parseResultList (inst.check_batch (J.stringifyReqList reqs)),
        rotate := fun u => inst.rotate u,
        reload := fun cfg => inst.reload (J.stringifyInit cfg),
        snapshot := fun u => jsToUint8Array (inst.snapshot u),
        restore := fun bytes => inst.restore bytes,
        metrics := fun u => J.parseMetrics (inst.metrics u),
        version := fun u => inst.version u }

/-- **C9.** When the loaded module does not export a `WasmFluxgate`
constructor, `createFluxgate` rejects with an error whose message names
the missing constructor, building no engine instance; otherwise it
returns a `Fluxgate` record exposing `check`, `checkBatch`, `rotate`,
`reload`, `snapshot`, `restore`, `metrics` and `version`, each wired to
the corresponding binding call through the JSON layer. -/
theorem c9_createFluxgate (J : JsJson) (wasm : WasmModule) (init : FluxgateInit)
    (ctor : String → WasmInstance) :
    (wasm.WasmFluxgate = none →
      createFluxgate J wasm init = .error missingCtorMsg ∧
      ("WasmFluxgate".data.isPrefixOf missingCtorMsg.data = true)) ∧
    (wasm.WasmFluxgate = some ctor →
      createFluxgate J wasm init = .ok
        { check := fun req =>
            J.parseResult ((ctor (J.stringifyInit init)).check (J.stringifyReq req)),
          checkBatch := fun reqs =>
            J.parseResultList ((ctor (J.stringifyInit init)).check_batch
              (J.stringifyReqList reqs)),
          rotate := fun u => (ctor (J.stringifyInit init)).rotate u,
          reload := fun cfg => (ctor (J.stringifyInit init)).reload (J.stringifyInit cfg),
          snapshot := fun u => jsToUint8Array ((ctor (J.stringifyInit init)).snapshot u),
          restore := fun bytes => (ctor (J.stringifyInit init)).restore bytes,
          metrics := fun u => J.parseMetrics ((ctor (J.stringifyInit init)).metrics u),
          version := fun u => (ctor (J.stringifyInit init)).version u }) := by
  constructor
  · intro h
    rw [createFluxgate, h]
    exact ⟨rfl, by decide⟩
  · intro h
    rw [createFluxgate, h]

def jsonStub : JsJson :=
  { stringifyReq := fun _ => "", stringifyReqList := fun _ => "", stringifyInit := fun _ => "",
    parseResult := fun _ => { allowed := true }, parseResultList := fun _ => [],
    parseMetrics := fun _ => [] }

def wasmInstStub : WasmInstance :=
  { check := fun s => s, check_batch := fun s => s, rotate := fun u => u,
    reload := fun _ => (), snapshot := fun _ => .u8 ⟨[1, 2]⟩, restore := fun _ => (),
    metrics := fun _ => "", version := fun _ => "0.1.0" }

def ctorStub : String → WasmInstance := fun _ => wasmInstStub

/-- Witness for `c9_createFluxgate`, on a module without the constructor
and on one with a concrete stub constructor. -/
theorem c9_createFluxgate_witness :
    ((WasmModule.mk none).WasmFluxgate = none) ∧
    (createFluxgate jsonStub (WasmModule.mk none) {} = .error missingCtorMsg ∧
      ("WasmFluxgate".data.isPrefixOf missingCtorMsg.data = true)) ∧
    ((WasmModule.mk (some ctorStub)).WasmFluxgate = some ctorStub) ∧
    (createFluxgate jsonStub (WasmModule.mk (some ctorStub)) {} = .ok
      { check := fun req =>
          jsonStub.parseResult ((ctorStub (jsonStub.stringifyInit {})).check
            (jsonStub.stringifyReq req)),
        checkBatch := fun reqs =>
          jsonStub.parseResultList ((ctorStub (jsonStub.stringifyInit {})).check_batch
            (jsonStub.stringifyReqList reqs)),
        rotate := fun u => (ctorStub (jsonStub.stringifyInit {})).rotate u,
        reload := fun cfg => (ctorStub (jsonStub.stringifyInit {})).reload
          (jsonStub.stringifyInit cfg),
        snapshot := fun u => jsToUint8Array ((ctorStub (jsonStub.stringifyInit {})).snapshot u),
        restore := fun bytes => (ctorStub (jsonStub.stringifyInit {})).restore bytes,
        metrics := fun u => jsonStub.parseMetrics ((ctorStub (jsonStub.stringifyInit {})).metrics u),
        version := fun u => (ctorStub (jsonStub.stringifyInit {})).version u }) :=
  ⟨rfl,
    (c9_createFluxgate jsonStub (WasmModule.mk none) {} ctorStub).1 rfl,
    rfl,
    (c9_createFluxgate jsonStub (WasmModule.mk (some ctorStub)) {} ctorStub).2 rfl⟩

/-- **C10.** The wrapper's `snapshot()` always returns a `Uint8Array`: a
value that already is one is passed through unchanged, any other byte
array is converted preserving its contents; and the `Fluxgate` returned by
`createFluxgate` applies exactly this conversion to whatever the binding's
`snapshot()` produced. -/
theorem c10_snapshot_uint8 (J : JsJson) (wasm : WasmModule) (init : FluxgateInit)
    (ctor : String → WasmInstance) (a : Uint8Array) (d : List Nat) (u : Unit)
    (h : wasm.WasmFluxgate = some ctor) :
    (jsToUint8Array (JsBytes.u8 a) = a) ∧
    (jsToUint8Array (JsBytes.arrayLike d) = ⟨d⟩) ∧
    ((jsToUint8Array (JsBytes.u8 a)).data = (JsBytes.u8 a).contents) ∧
    ((jsToUint8Array (JsBytes.arrayLike d)).data = (JsBytes.arrayLike d).contents) ∧
    ((createFluxgate J wasm init).toOption.map (fun g => g.snapshot u) =
      some (jsToUint8Array ((ctor (J.stringifyInit init)).snapshot u))) := by
  refine ⟨rfl, rfl, rfl, rfl, ?_⟩
  rw [createFluxgate, h]
  rfl

/-- Witness for `c10_snapshot_uint8` with a stub module and concrete byte
values. -/
theorem c10_snapshot_uint8_witness :
    ((WasmModule.mk (some ctorStub)).WasmFluxgate = some ctorStub) ∧
    ((jsToUint8Array (JsBytes.u8 ⟨[3]⟩) = ⟨[3]⟩) ∧
      (jsToUint8Array (JsBytes.arrayLike [4, 5]) = ⟨[4, 5]⟩) ∧
      ((jsToUint8Array (JsBytes.u8 ⟨[3]⟩)).data = (JsBytes.u8 ⟨[3]⟩).contents) ∧
      ((jsToUint8Array (JsBytes.arrayLike [4, 5])).data =
        (JsBytes.arrayLike [4, 5]).contents) ∧
      ((createFluxgate jsonStub (WasmModule.mk (some ctorStub)) {}).toOption.map
          (fun g => g.snapshot ()) =
        some (jsToUint8Array ((ctorStub (jsonStub.stringifyInit {})).snapshot ())))) :=
  ⟨rfl, c10_snapshot_uint8 jsonStub (WasmModule.mk (some ctorStub)) {} ctorStub
    ⟨[3]⟩ [4, 5] () rfl⟩
